import Mathlib

/-!
Verification of the bingo-strip generation and validation core of the
`vispa` repository (src/App.tsx).  The stateful TypeScript functions are
embedded as pure Lean functions; the ambient random source is abstracted
as an explicit parameter (per-column shuffled pools for the strip
generator, a candidate stream for the batch generator, a random-number
stream plus fuel for the code generator).
-/

namespace Vispa

/-- Column of a number: 8 for 90, otherwise `n / 10` (source `colIndex`). -/
def colIndex (n : Nat) : Nat := if n = 90 then 8 else n / 10

/-- Contents of column `c` before shuffling: `[1..9], [10..19], ..., [80..90]`
(source `ranges`, built from `start`/`end` in `generateBalancedStrip`). -/
def colRange (c : Nat) : List Nat :=
  let start := if c = 0 then 1 else c * 10
  let stop := if c = 8 then 90 else c * 10 + 9
  List.range' start (stop - start + 1)

/-- Base pass of the per-column distribution: ticket `t` receives `pool[t]`,
one number per ticket while the pool lasts (source: first inner loop of
`generateBalancedStrip`). -/
def baseAssign (pool : List Nat) (t : Nat) : List Nat :=
  ((pool.take 6).drop t).take 1

/-- Extra pass: the i-th leftover `pool[6 + i]` goes to ticket `(c + i) % 6`
(source: second inner loop of `generateBalancedStrip`). -/
def extraAssign (pool : List Nat) (c t : Nat) : List Nat :=
  (List.range (pool.length - min 6 pool.length)).filterMap
    (fun i => if (c + i) % 6 = t then pool[6 + i]? else none)

/-- All numbers ticket `t` receives from column `c`, in push order
(source: contents of `ticketsCols[t][c]`). -/
def assignCol (pool : List Nat) (c t : Nat) : List Nat :=
  baseAssign pool t ++ extraAssign pool c t

/-- Ascending sort, modelling `.sort((a, b) => a - b)`. -/
def sortAsc (l : List Nat) : List Nat := l.mergeSort (fun a b => decide (a ≤ b))

/-- One balanced strip, parametrised by the outcome `pools` of the per-column
shuffles: `pools c` stands for the shuffled `ranges[c]`
(source `generateBalancedStrip`). -/
def generateBalancedStrip (pools : Nat → List Nat) : List (List Nat) :=
  (List.range 6).map (fun t =>
    sortAsc (((List.range 9).map (fun c => assignCol (pools c) c t)).flatten))

/-- Hypothesis describing the random shuffles: every pool is a permutation of
its column range. -/
def ShuffledPools (pools : Nat → List Nat) : Prop :=
  ∀ c, c < 9 → (pools c).Perm (colRange c)

/- ### Generic list helpers -/

theorem flatten_take_one {α : Type} (l : List α) : ∀ n, l.length ≤ n →
    ((List.range n).map (fun t => (l.drop t).take 1)).flatten = l := by
  induction l with
  | nil =>
    intro n _
    rw [List.flatten_eq_nil_iff]
    intro u hu
    rcases List.mem_map.mp hu with ⟨t, _, ht⟩
    simp [← ht]
  | cons a l ih =>
    intro n hn
    match n with
    | n + 1 =>
      rw [List.range_succ_eq_map, List.map_cons, List.map_map]
      have hc : ∀ t : Nat,
          ((fun t => ((a :: l).drop t).take 1) ∘ Nat.succ) t =
            (fun t => (l.drop t).take 1) t := by
        intro t; simp [Function.comp]
      rw [List.map_congr_left (fun t _ => hc t)]
      have hn' : l.length ≤ n := by
        simpa [Nat.succ_le_succ_iff] using hn
      simp [List.flatten_cons, ih n hn']

theorem filterMap_if_eq_filter {α β : Type} (p : α → Prop) [DecidablePred p]
    (g : α → Option β) (l : List α) :
    l.filterMap (fun a => if p a then g a else none) =
      (l.filter (fun a => decide (p a))).filterMap g := by
  induction l with
  | nil => rfl
  | cons a l ih =>
    by_cases h : p a <;>
      simp [List.filterMap_cons, List.filter_cons, h, ih]

theorem filterMap_range_getElem {α : Type} (l : List α) :
    ∀ n, (List.range n).filterMap (fun i => l[i]?) = l.take n := by
  intro n
  induction n with
  | zero => simp
  | succ n ih =>
    rw [List.range_succ, List.filterMap_append, ih, List.take_succ]
    cases h : l[n]? <;> simp [List.filterMap_cons, h]

theorem count_filter_eq {α : Type} [DecidableEq α] (p : α → Bool) (x : α)
    (l : List α) :
    List.count x (l.filter p) = if p x then List.count x l else 0 := by
  by_cases h : p x = true
  · rw [if_pos h, List.count_filter h]
  · rw [if_neg h, List.count_eq_zero]
    intro hx
    exact h (List.mem_filter.mp hx).2

theorem sum_range_map_ite (m k v : Nat) :
    ((List.range m).map (fun t => if k = t then v else 0)).sum =
      if k < m then v else 0 := by
  induction m with
  | zero => simp
  | succ m ih =>
    rw [List.range_succ, List.map_append, List.sum_append, ih]
    by_cases h1 : k < m
    · have h2 : k ≠ m := by omega
      simp [h1, h2, Nat.lt_succ_of_lt h1]
    · by_cases h2 : k = m
      · simp [h1, h2, Nat.lt_succ_self]
      · have h3 : ¬ k < m + 1 := by omega
        simp [h1, h2, h3]

theorem flatten_filter_key_perm {α : Type} [DecidableEq α] (key : α → Nat)
    (l : List α) (n : Nat) (h : ∀ a, key a < n) :
    (((List.range n).map (fun t => l.filter (fun a => decide (key a = t)))).flatten).Perm
      l := by
  rw [List.perm_iff_count]
  intro x
  rw [List.count_flatten, List.map_map]
  have hc : ∀ t : Nat,
      (List.count x ∘ fun t => l.filter (fun a => decide (key a = t))) t =
        (fun t => if key x = t then List.count x l else 0) t := by
    intro t
    simp only [Function.comp]
    rw [count_filter_eq]
    by_cases hx : key x = t <;> simp [hx]
  rw [List.map_congr_left (fun t _ => hc t), sum_range_map_ite]
  simp [h x]

theorem flatten_map_append_perm {α β : Type} (l : List β) (f g : β → List α) :
    ((l.map (fun t => f t ++ g t)).flatten).Perm
      ((l.map f).flatten ++ (l.map g).flatten) := by
  induction l with
  | nil => simp
  | cons a l ih =>
    simp only [List.map_cons, List.flatten_cons, List.append_assoc]
    refine List.Perm.append_left (f a) ?_
    refine (List.Perm.append_left (g a) ih).trans ?_
    rw [← List.append_assoc, ← List.append_assoc]
    exact List.Perm.append List.perm_append_comm (List.Perm.refl _)

/- ### Per-column distribution is exhaustive -/

/-- The six tickets together receive exactly the column pool (as a multiset). -/
theorem assignCol_flatten_perm (pool : List Nat) (c : Nat) :
    (((List.range 6).map (fun t => assignCol pool c t)).flatten).Perm pool := by
  unfold assignCol
  refine (flatten_map_append_perm (List.range 6) (baseAssign pool)
    (fun t => extraAssign pool c t)).trans ?_
  have hbase : ((List.range 6).map (baseAssign pool)).flatten = pool.take 6 := by
    unfold baseAssign
    exact flatten_take_one (pool.take 6) 6 (by simp)
  have hextra :
      (((List.range 6).map (fun t => extraAssign pool c t)).flatten).Perm
        (pool.drop 6) := by
    unfold extraAssign
    have hR : pool.length - min 6 pool.length = (pool.drop 6).length := by
      simp [List.length_drop]; omega
    have hrw : ∀ t : Nat,
        (List.range (pool.length - min 6 pool.length)).filterMap
            (fun i => if (c + i) % 6 = t then pool[6 + i]? else none) =
          ((List.range (pool.length - min 6 pool.length)).filter
            (fun i => decide ((c + i) % 6 = t))).filterMap
              (fun i => pool[6 + i]?) := by
      intro t
      exact filterMap_if_eq_filter (fun i => (c + i) % 6 = t)
        (fun i => pool[6 + i]?) _
    rw [List.map_congr_left (fun t _ => hrw t)]
    have hperm :
        (((List.range 6).map (fun t =>
            (List.range (pool.length - min 6 pool.length)).filter
              (fun i => decide ((c + i) % 6 = t)))).flatten).Perm
          (List.range (pool.length - min 6 pool.length)) :=
      flatten_filter_key_perm (fun i => (c + i) % 6) _ 6
        (fun i => Nat.mod_lt _ (by omega))
    have hfm := hperm.filterMap (fun i => pool[6 + i]?)
    rw [List.filterMap_flatten, List.map_map] at hfm
    have heq : ∀ i : Nat, pool[6 + i]? = (pool.drop 6)[i]? := by
      intro i; rw [List.getElem?_drop]
    have : (List.range (pool.length - min 6 pool.length)).filterMap
        (fun i => pool[6 + i]?) = pool.drop 6 := by
      calc (List.range (pool.length - min 6 pool.length)).filterMap
            (fun i => pool[6 + i]?)
          = (List.range (pool.length - min 6 pool.length)).filterMap
            (fun i => (pool.drop 6)[i]?) := by
            exact List.filterMap_congr (fun i _ => heq i)
        _ = (pool.drop 6).take (pool.length - min 6 pool.length) :=
            filterMap_range_getElem _ _
        _ = pool.drop 6 := by rw [hR]; exact List.take_length _
    rw [this] at hfm
    simpa [Function.comp] using hfm
  rw [hbase]
  refine (List.Perm.append_left (pool.take 6) hextra).trans ?_
  rw [List.take_append_drop]

theorem list_sum_range (f : Nat → Nat) (n : Nat) :
    ((List.range n).map f).sum = ∑ i ∈ Finset.range n, f i := by
  induction n with
  | zero => simp
  | succ n ih =>
    rw [List.range_succ, List.map_append, List.sum_append, Finset.sum_range_succ,
      ih]
    simp

theorem flatten_map_perm_of_perm {α β : Type} (l : List β) (f g : β → List α)
    (h : ∀ b ∈ l, (f b).Perm (g b)) :
    ((l.map f).flatten).Perm ((l.map g).flatten) := by
  induction l with
  | nil => simp
  | cons a l ih =>
    simp only [List.map_cons, List.flatten_cons]
    exact List.Perm.append (h a (List.mem_cons_self a l))
      (ih (fun b hb => h b (List.mem_cons_of_mem a hb)))

theorem flatten_flatten_swap_perm {α : Type} [DecidableEq α]
    (A : Nat → Nat → List α) (m n : Nat) :
    (((List.range m).map
        (fun t => ((List.range n).map (fun c => A c t)).flatten)).flatten).Perm
      (((List.range n).map
        (fun c => ((List.range m).map (fun t => A c t)).flatten)).flatten) := by
  rw [List.perm_iff_count]
  intro x
  rw [List.count_flatten, List.count_flatten, List.map_map, List.map_map]
  have h1 : ∀ t ∈ List.range m,
      (List.count x ∘ fun t => ((List.range n).map (fun c => A c t)).flatten) t =
        (fun t => ((List.range n).map (fun c => List.count x (A c t))).sum) t := by
    intro t _
    simp only [Function.comp_apply]
    rw [List.count_flatten, List.map_map]
    rfl
  have h2 : ∀ c ∈ List.range n,
      (List.count x ∘ fun c => ((List.range m).map (fun t => A c t)).flatten) c =
        (fun c => ((List.range m).map (fun t => List.count x (A c t))).sum) c := by
    intro c _
    simp only [Function.comp_apply]
    rw [List.count_flatten, List.map_map]
    rfl
  rw [List.map_congr_left h1, List.map_congr_left h2, list_sum_range, list_sum_range]
  have h3 : ∀ t ∈ Finset.range m,
      ((List.range n).map (fun c => List.count x (A c t))).sum =
        ∑ c ∈ Finset.range n, List.count x (A c t) :=
    fun t _ => list_sum_range _ _
  have h4 : ∀ c ∈ Finset.range n,
      ((List.range m).map (fun t => List.count x (A c t))).sum =
        ∑ t ∈ Finset.range m, List.count x (A c t) :=
    fun c _ => list_sum_range _ _
  rw [Finset.sum_congr rfl h3, Finset.sum_congr rfl h4]
  exact Finset.sum_comm

/-- C1: for every outcome of the random shuffles, the multiset union of the
numbers of the 6 cards of `generateBalancedStrip` is exactly `{1, ..., 90}`:
90 numbers total, each of 1..90 appearing exactly once, no repeats, no gaps. -/
theorem c1_strip_coverage (pools : Nat → List Nat) (h : ShuffledPools pools) :
    ((generateBalancedStrip pools).flatten).Perm (List.range' 1 90) := by
  unfold generateBalancedStrip
  have hsort : (((List.range 6).map (fun t =>
      sortAsc (((List.range 9).map (fun c => assignCol (pools c) c t)).flatten))).flatten).Perm
      (((List.range 6).map (fun t =>
        ((List.range 9).map (fun c => assignCol (pools c) c t)).flatten)).flatten) :=
    flatten_map_perm_of_perm _ _ _ (fun t _ => List.mergeSort_perm _ _)
  refine hsort.trans ?_
  refine (flatten_flatten_swap_perm (fun c t => assignCol (pools c) c t) 6 9).trans ?_
  have hcol : ∀ c ∈ List.range 9,
      (((List.range 6).map (fun t => assignCol (pools c) c t)).flatten).Perm
        (colRange c) := by
    intro c hc
    exact (assignCol_flatten_perm (pools c) c).trans (h c (List.mem_range.mp hc))
  have hstep := flatten_map_perm_of_perm (List.range 9)
    (fun c => ((List.range 6).map (fun t => assignCol (pools c) c t)).flatten)
    colRange hcol
  refine hstep.trans ?_
  have : ((List.range 9).map colRange).flatten = List.range' 1 90 := by decide
  rw [this]

/-- Witness for C1: the identity shuffles satisfy the pool hypothesis. -/
theorem c1_strip_coverage_witness :
    ((generateBalancedStrip colRange).flatten).Perm (List.range' 1 90) :=
  c1_strip_coverage colRange (fun c _ => List.Perm.refl _)

/- ### Card shape -/

theorem length_filterMap_of_isSome {α β : Type} (g : α → Option β) (l : List α)
    (h : ∀ a ∈ l, (g a).isSome) : (l.filterMap g).length = l.length := by
  induction l with
  | nil => rfl
  | cons a l ih =>
    rw [List.filterMap_cons]
    cases hga : g a with
    | none =>
      have := h a (List.mem_cons_self a l)
      rw [hga] at this
      cases this
    | some b =>
      simp only [List.length_cons]
      rw [ih (fun a ha => h a (List.mem_cons_of_mem _ ha))]

theorem length_assignCol (pool : List Nat) (c t : Nat) :
    (assignCol pool c t).length =
      min 1 (min 6 pool.length - t) +
        ((List.range (pool.length - min 6 pool.length)).filter
          (fun i => decide ((c + i) % 6 = t))).length := by
  unfold assignCol baseAssign extraAssign
  rw [List.length_append]
  congr 1
  · simp [List.length_take, List.length_drop]
  · rw [filterMap_if_eq_filter (fun i => (c + i) % 6 = t) (fun i => pool[6 + i]?)]
    refine length_filterMap_of_isSome _ _ ?_
    intro i hi
    have hiR : i < pool.length - min 6 pool.length :=
      List.mem_range.mp (List.mem_of_mem_filter hi)
    have h6i : 6 + i < pool.length := by omega
    rw [List.getElem?_eq_getElem h6i]
    rfl

/-- For every outcome of the shuffles, the six card lengths are always
`[15, 15, 16, 15, 15, 14]`: the rotating extra-distribution `(c + i) % 6`
hands ticket 2 seven extras and ticket 5 only five. -/
theorem cardLengths_eq (pools : Nat → List Nat) (h : ShuffledPools pools) :
    (generateBalancedStrip pools).map List.length = [15, 15, 16, 15, 15, 14] := by
  unfold generateBalancedStrip
  rw [List.map_map]
  have hc : ∀ t ∈ List.range 6,
      (List.length ∘ fun t =>
        sortAsc (((List.range 9).map (fun c => assignCol (pools c) c t)).flatten)) t =
        (fun t => ((List.range 9).map
          (fun c => (assignCol (colRange c) c t).length)).sum) t := by
    intro t _
    simp only [Function.comp_apply]
    rw [sortAsc, List.length_mergeSort, List.length_flatten, List.map_map]
    have hcc : ∀ c ∈ List.range 9,
        (List.length ∘ fun c => assignCol (pools c) c t) c =
          (fun c => (assignCol (colRange c) c t).length) c := by
      intro c hcm
      have h9 := List.mem_range.mp hcm
      simp only [Function.comp_apply]
      rw [length_assignCol, length_assignCol, (h c h9).length_eq]
    rw [List.map_congr_left hcc]
  rw [List.map_congr_left hc]
  decide

/-- C2: the strip does have exactly 6 cards, but the cards do NOT all have 15
numbers: at the identity shuffles (and, by `cardLengths_eq`, at every other
outcome) the third card has 16 numbers and the sixth has 14. -/
theorem c2_card_sizes :
    (generateBalancedStrip colRange).length = 6 ∧
      (generateBalancedStrip colRange).map List.length = [15, 15, 16, 15, 15, 14] :=
  ⟨by simp [generateBalancedStrip], cardLengths_eq colRange (fun c _ => List.Perm.refl _)⟩

/- ### Column bounds per card -/

theorem mem_assignCol {pool : List Nat} {c t x : Nat}
    (hx : x ∈ assignCol pool c t) : x ∈ pool := by
  rcases List.mem_append.mp hx with hb | he
  · exact List.mem_of_mem_take (List.mem_of_mem_drop (List.mem_of_mem_take hb))
  · rcases List.mem_filterMap.mp he with ⟨i, _, hi⟩
    by_cases hc : (c + i) % 6 = t
    · rw [if_pos hc] at hi
      exact List.getElem?_mem hi
    · rw [if_neg hc] at hi
      cases hi

theorem colIndex_of_mem_colRange :
    ∀ c, c < 9 → ∀ x ∈ colRange c, colIndex x = c := by decide

/-- C5: for every outcome of the shuffles, every card of the strip contains at
least 1 and at most 2 numbers from each of the 9 columns. -/
theorem c5_column_bound (pools : Nat → List Nat) (h : ShuffledPools pools) :
    ∀ tk ∈ generateBalancedStrip pools, ∀ c, c < 9 →
      1 ≤ tk.countP (fun n => decide (colIndex n = c)) ∧
        tk.countP (fun n => decide (colIndex n = c)) ≤ 2 := by
  intro tk htk c hc9
  unfold generateBalancedStrip at htk
  rcases List.mem_map.mp htk with ⟨t, ht, rfl⟩
  have ht6 : t < 6 := List.mem_range.mp ht
  rw [sortAsc, (List.mergeSort_perm _ _).countP_eq, List.countP_flatten,
    List.map_map]
  have hpt : ∀ c' ∈ List.range 9,
      ((List.countP (fun n => decide (colIndex n = c))) ∘
          fun c' => assignCol (pools c') c' t) c' =
        (fun c' => if c = c' then (assignCol (colRange c') c' t).length else 0)
          c' := by
    intro c' hcm
    have h9 := List.mem_range.mp hcm
    simp only [Function.comp_apply]
    by_cases hcc : c = c'
    · rw [if_pos hcc]
      subst hcc
      have hlenp : (assignCol (pools c) c t).length =
          (assignCol (colRange c) c t).length := by
        rw [length_assignCol, length_assignCol, (h c h9).length_eq]
      rw [← hlenp]
      refine List.countP_eq_length.mpr ?_
      intro a ha
      have hmem : a ∈ colRange c := ((h c h9).mem_iff).mp (mem_assignCol ha)
      simp [colIndex_of_mem_colRange c h9 a hmem]
    · rw [if_neg hcc]
      refine List.countP_eq_zero.mpr ?_
      intro a ha
      have hmem : a ∈ colRange c' := ((h c' h9).mem_iff).mp (mem_assignCol ha)
      have := colIndex_of_mem_colRange c' h9 a hmem
      simp [this]
      omega
  rw [List.map_congr_left hpt]
  have hconst : ∀ c' ∈ List.range 9,
      (fun c' => if c = c' then (assignCol (colRange c') c' t).length else 0) c' =
        (fun c' => if c = c' then (assignCol (colRange c) c t).length else 0)
          c' := by
    intro c' _
    by_cases hcc : c = c'
    · subst hcc; rfl
    · simp [hcc]
  rw [List.map_congr_left hconst, sum_range_map_ite, if_pos hc9]
  have hdec : ∀ c', c' < 9 → ∀ t', t' < 6 →
      1 ≤ (assignCol (colRange c') c' t').length ∧
        (assignCol (colRange c') c' t').length ≤ 2 := by decide
  exact hdec c hc9 t ht6

/-- Witness for C5: identity shuffles, first card, column 0. -/
theorem c5_column_bound_witness :
    1 ≤ ((generateBalancedStrip colRange).head
          (by simp [generateBalancedStrip])).countP
        (fun n => decide (colIndex n = 0)) ∧
      ((generateBalancedStrip colRange).head
          (by simp [generateBalancedStrip])).countP
        (fun n => decide (colIndex n = 0)) ≤ 2 :=
  c5_column_bound colRange (fun c _ => List.Perm.refl _)
    ((generateBalancedStrip colRange).head (by simp [generateBalancedStrip]))
    (List.head_mem _) 0 (by decide)

/- ### Strip validator -/

/-- Result record of the validator (source: return object of `validateStrip`). -/
structure StripValidation where
  ok : Bool
  missing : List Nat
  duplicates : List Nat
deriving DecidableEq

/-- Validator (source `validateStrip`): tally the flattened strip, then scan
`n = 1..90` in ascending order, collecting the absent values into `missing`
and the values seen at least twice into `duplicates`; `ok` demands both lists
empty and 90 elements in total. -/
def validateStrip (tickets : List (List Nat)) : StripValidation :=
  let all := tickets.flatten
  let missing := (List.range' 1 90).filter (fun n => all.count n == 0)
  let duplicates := (List.range' 1 90).filter (fun n => 1 < all.count n)
  { ok := missing.length == 0 && duplicates.length == 0 && all.length == 90,
    missing := missing, duplicates := duplicates }

theorem count_range'_1_90 (n : Nat) :
    (List.range' 1 90).count n = if 1 ≤ n ∧ n ≤ 90 then 1 else 0 := by
  by_cases h : 1 ≤ n ∧ n ≤ 90
  · rw [if_pos h]
    exact List.count_eq_one_of_mem (List.nodup_range' 1 90)
      (List.mem_range'_1.mpr (by omega))
  · rw [if_neg h, List.count_eq_zero]
    intro hm
    have := List.mem_range'_1.mp hm
    omega

/-- C4: `validateStrip tickets |>.ok` is true exactly when the flattened strip
is a permutation of `1..90`; equivalently, exactly when `missing` and
`duplicates` are empty and the total element count is 90. -/
theorem c4_validator_ok_iff (tickets : List (List Nat)) :
    ((validateStrip tickets).ok = true ↔
        (tickets.flatten).Perm (List.range' 1 90)) ∧
      ((validateStrip tickets).ok = true ↔
        (validateStrip tickets).missing = [] ∧
          (validateStrip tickets).duplicates = [] ∧
          (tickets.flatten).length = 90) := by
  have hok : (validateStrip tickets).ok = true ↔
      (validateStrip tickets).missing = [] ∧
        (validateStrip tickets).duplicates = [] ∧
        (tickets.flatten).length = 90 := by
    simp [validateStrip, List.length_eq_zero]
    tauto
  refine ⟨?_, hok⟩
  rw [hok]
  constructor
  · rintro ⟨hm, _, hlen⟩
    have hmiss : ∀ n ∈ List.range' 1 90,
        ¬ ((tickets.flatten).count n == 0) = true := by
      simpa [validateStrip, List.filter_eq_nil_iff] using hm
    refine List.Perm.symm ?_
    refine List.Subperm.perm_of_length_le ?_ (by rw [hlen]; simp)
    rw [List.subperm_ext_iff]
    intro x hx
    have hx1 := hmiss x hx
    have : (tickets.flatten).count x ≠ 0 := by simpa using hx1
    have hcr : (List.range' 1 90).count x = 1 := by
      rw [count_range'_1_90]
      have := List.mem_range'_1.mp hx
      rw [if_pos (by omega)]
    omega
  · intro hperm
    have hcount : ∀ n, (tickets.flatten).count n =
        if 1 ≤ n ∧ n ≤ 90 then 1 else 0 := by
      intro n
      rw [List.perm_iff_count.mp hperm, count_range'_1_90]
    refine ⟨?_, ?_, ?_⟩
    · simp only [validateStrip]
      rw [List.filter_eq_nil_iff]
      intro n hn
      have hr := List.mem_range'_1.mp hn
      rw [hcount, if_pos (by omega)]
      simp
    · simp only [validateStrip]
      rw [List.filter_eq_nil_iff]
      intro n hn
      rw [hcount]
      by_cases h : 1 ≤ n ∧ n ≤ 90 <;> simp [h]
    · rw [hperm.length_eq]
      rfl

/-- Concrete scenario strip: 5 cards of 15 numbers, covering 2..75 with the
number 50 appearing twice, omitting 1 and 90 (and consequently 76..89). -/
def scenarioStrip : List (List Nat) :=
  [List.range' 2 15, List.range' 17 15, List.range' 32 15, List.range' 47 15,
    50 :: List.range' 62 14]

/-- C8 counterexample: the scenario of the claim is impossible.  A strip of 5
cards of 15 numbers (75 slots) omitting 1 and 90 and containing 50 twice has
at most 74 distinct in-range values, so `missing` can never be just
`[1, 90]`; on this concrete such strip the validator reports 16 missing
numbers. -/
theorem c8_counterexample :
    scenarioStrip.length = 5 ∧ (∀ tk ∈ scenarioStrip, tk.length = 15) ∧
      1 ∉ scenarioStrip.flatten ∧ 90 ∉ scenarioStrip.flatten ∧
      scenarioStrip.flatten.count 50 = 2 ∧
      (validateStrip scenarioStrip).missing ≠ [1, 90] := by decide

/-- C8 amended: `missing` is the ascending list of exactly the numbers of
`[1, 90]` absent from the strip and `duplicates` the ascending list of exactly
those occurring at least twice; on the scenario strip the validator returns
`ok = false`, `duplicates = [50]`, and a `missing` list that contains 1 and 90
(along with the other 14 absent numbers). -/
theorem c8_missing_duplicates (tickets : List (List Nat)) :
    ((validateStrip tickets).missing.Sorted (· < ·) ∧
      ∀ n, n ∈ (validateStrip tickets).missing ↔
        1 ≤ n ∧ n ≤ 90 ∧ n ∉ tickets.flatten) ∧
    ((validateStrip tickets).duplicates.Sorted (· < ·) ∧
      ∀ n, n ∈ (validateStrip tickets).duplicates ↔
        1 ≤ n ∧ n ≤ 90 ∧ 2 ≤ (tickets.flatten).count n) ∧
    ((validateStrip scenarioStrip).ok = false ∧
      (validateStrip scenarioStrip).missing = 1 :: List.range' 76 15 ∧
      (validateStrip scenarioStrip).duplicates = [50]) := by
  refine ⟨⟨?_, ?_⟩, ⟨?_, ?_⟩, by decide⟩
  · exact List.Pairwise.filter _ (List.pairwise_lt_range' 1 90)
  · intro n
    simp only [validateStrip, List.mem_filter, List.mem_range'_1]
    constructor
    · rintro ⟨hr, hc⟩
      refine ⟨by omega, by omega, ?_⟩
      rw [← List.count_eq_zero]
      simpa using hc
    · rintro ⟨h1, h2, hc⟩
      refine ⟨by omega, ?_⟩
      rw [← List.count_eq_zero] at hc
      simpa using hc
  · exact List.Pairwise.filter _ (List.pairwise_lt_range' 1 90)
  · intro n
    simp only [validateStrip, List.mem_filter, List.mem_range'_1]
    constructor
    · rintro ⟨hr, hc⟩
      refine ⟨by omega, by omega, ?_⟩
      have := of_decide_eq_true hc
      omega
    · rintro ⟨h1, h2, hc⟩
      refine ⟨by omega, ?_⟩
      exact decide_eq_true (by omega)

/-- C10: `missing` and `duplicates` only ever contain numbers of `[1, 90]`;
out-of-range numbers in the input, even repeated ones, never show up in either
list, and the in-range content of the strip alone determines both lists (so
out-of-range elements influence the result only through the total-length
conjunct of `ok`). -/
theorem c10_out_of_range (tickets : List (List Nat)) :
    (∀ x ∈ (validateStrip tickets).missing, 1 ≤ x ∧ x ≤ 90) ∧
    (∀ x ∈ (validateStrip tickets).duplicates, 1 ≤ x ∧ x ≤ 90) ∧
    (∀ tickets' : List (List Nat),
      tickets.flatten.filter (fun n => decide (1 ≤ n ∧ n ≤ 90)) =
        tickets'.flatten.filter (fun n => decide (1 ≤ n ∧ n ≤ 90)) →
      (validateStrip tickets).missing = (validateStrip tickets').missing ∧
        (validateStrip tickets).duplicates =
          (validateStrip tickets').duplicates) ∧
    ((validateStrip tickets).ok = true ↔
      (validateStrip tickets).missing = [] ∧
        (validateStrip tickets).duplicates = [] ∧
        tickets.flatten.length = 90) := by
  refine ⟨?_, ?_, ?_, (c4_validator_ok_iff tickets).2⟩
  · intro x hx
    have := List.mem_range'_1.mp (List.mem_of_mem_filter hx)
    omega
  · intro x hx
    have := List.mem_range'_1.mp (List.mem_of_mem_filter hx)
    omega
  · intro tickets' hfil
    have hcnt : ∀ n, 1 ≤ n → n ≤ 90 →
        tickets.flatten.count n = tickets'.flatten.count n := by
      intro n h1 h2
      have hp : (fun m => decide (1 ≤ m ∧ m ≤ 90)) n = true :=
        decide_eq_true (by omega)
      have e1 := count_filter_eq (fun m => decide (1 ≤ m ∧ m ≤ 90)) n
        tickets.flatten
      have e2 := count_filter_eq (fun m => decide (1 ≤ m ∧ m ≤ 90)) n
        tickets'.flatten
      have hd : decide (1 ≤ n ∧ n ≤ 90) = true := hp
      rw [hd, if_pos rfl] at e1 e2
      rw [← e1, ← e2, hfil]
    constructor
    · simp only [validateStrip]
      refine List.filter_congr ?_
      intro n hn
      have := List.mem_range'_1.mp hn
      rw [hcnt n (by omega) (by omega)]
    · simp only [validateStrip]
      refine List.filter_congr ?_
      intro n hn
      have := List.mem_range'_1.mp hn
      rw [hcnt n (by omega) (by omega)]

/-- Witness for C10 third conjunct: two strips with equal in-range content
(out-of-range values 0 and 91 differ) validate to the same lists. -/
theorem c10_out_of_range_witness :
    (validateStrip [[0, 91, 91, 5]]).missing =
        (validateStrip [[91, 5]]).missing ∧
      (validateStrip [[0, 91, 91, 5]]).duplicates =
        (validateStrip [[91, 5]]).duplicates :=
  (c10_out_of_range [[0, 91, 91, 5]]).2.2.1 [[91, 5]] (by decide)

/- ### Batch generation with unique cards -/

/-- Canonical signature of a ticket (source `ticketSignature`): the ascending
sort of the card joined with commas. -/
def ticketSignature (ticket : List Nat) : String :=
  String.intercalate ("," ) ((sortAsc ticket).map toString)

/-- Loop body of the batch generator (source: `while` loop of
`generateStripsUnique`): `cands k` is the strip produced by the k-th call of
the strip generator, `fuel` is the remaining attempt budget (`guard`),
`seen` the signature set, `strips` the accepted strips so far. -/
def generateStripsUniqueAux (cands : Nat → List (List Nat)) (count : Nat) :
    Nat → Nat → List String → List (List (List Nat)) → List (List (List Nat))
  | 0, _, _, strips => strips
  | fuel + 1, k, seen, strips =>
    if strips.length < count then
      let s := cands k
      let sigs := s.map ticketSignature
      if sigs.any (fun sig => seen.contains sig) then
        generateStripsUniqueAux cands count fuel (k + 1) seen strips
      else
        generateStripsUniqueAux cands count fuel (k + 1) (seen ++ sigs)
          (strips ++ [s])
    else strips

/-- Batch generator (source `generateStripsUnique`): performs at most
`max 2000 (count * 200)` attempts. -/
def generateStripsUnique (cands : Nat → List (List Nat)) (count : Nat) :
    List (List (List Nat)) :=
  generateStripsUniqueAux cands count (max 2000 (count * 200)) 0 [] []

/-- Hypothesis describing the candidate stream: every candidate strip is an
outcome of the balanced strip generator for some shuffle. -/
def BalancedCandidates (cands : Nat → List (List Nat)) : Prop :=
  ∀ k, ∃ pools, ShuffledPools pools ∧ cands k = generateBalancedStrip pools

/-- Sorting a card twice is the same as sorting it once. -/
theorem sortAsc_sortAsc (l : List Nat) : sortAsc (sortAsc l) = sortAsc l := by
  unfold sortAsc
  exact List.mergeSort_eq_self (List.sorted_mergeSort' l)

/-- Equal sorted forms give equal signatures. -/
theorem ticketSignature_eq_of_sortAsc_eq {a b : List Nat}
    (h : sortAsc a = sortAsc b) : ticketSignature a = ticketSignature b := by
  unfold ticketSignature
  rw [h]

/-- Within one generated strip, the sorted forms of the cards are pairwise
distinct: the cards are nonempty and pairwise disjoint. -/
theorem goodStrip_sorted_nodup (pools : Nat → List Nat)
    (h : ShuffledPools pools) :
    (((generateBalancedStrip pools).map sortAsc)).Nodup := by
  have hflat : (generateBalancedStrip pools).flatten.Nodup :=
    ((c1_strip_coverage pools h).nodup_iff).mpr (List.nodup_range' 1 90)
  rcases List.nodup_flatten.mp hflat with ⟨hcard, hdisj⟩
  have hne : ∀ tk ∈ generateBalancedStrip pools, tk ≠ [] := by
    intro tk htk hnil
    have hmem : tk.length ∈ (generateBalancedStrip pools).map List.length :=
      List.mem_map_of_mem List.length htk
    rw [cardLengths_eq pools h, hnil] at hmem
    simp at hmem
  have hsym : Symmetric (List.Disjoint (α := Nat)) :=
    fun a b hab x hxb hxa => hab hxa hxb
  have hstrip_nodup : (generateBalancedStrip pools).Nodup := by
    refine List.Pairwise.imp_of_mem ?_ hdisj
    intro a b ha _ hab heq
    rcases List.exists_mem_of_ne_nil a (hne a ha) with ⟨x, hx⟩
    exact hab hx (heq ▸ hx)
  refine List.Nodup.map_on ?_ hstrip_nodup
  intro a ha b hb heq
  by_contra hab
  have hdisj2 : a.Disjoint b := hdisj.forall hsym ha hb hab
  rcases List.exists_mem_of_ne_nil a (hne a ha) with ⟨x, hx⟩
  have hxa : x ∈ sortAsc a := by
    unfold sortAsc
    rw [List.mem_mergeSort]
    exact hx
  rw [heq] at hxa
  have hxb : x ∈ b := by
    unfold sortAsc at hxa
    rw [List.mem_mergeSort] at hxa
    exact hxa
  exact hdisj2 hx hxb

/-- Invariant of the batch loop: if the sorted cards accepted so far are
pairwise distinct and all their signatures are recorded in `seen`, the same
distinctness holds for the final batch. -/
theorem generateStripsUniqueAux_nodup (cands : Nat → List (List Nat))
    (h : BalancedCandidates cands) (count : Nat) :
    ∀ fuel k seen strips,
      ((strips.flatten.map sortAsc)).Nodup →
      (∀ tk ∈ strips.flatten, ticketSignature tk ∈ seen) →
      (((generateStripsUniqueAux cands count fuel k seen strips).flatten.map
        sortAsc)).Nodup := by
  intro fuel
  induction fuel with
  | zero => intro k seen strips h1 _; exact h1
  | succ fuel ih =>
    intro k seen strips h1 h2
    rw [generateStripsUniqueAux]
    by_cases hlen : strips.length < count
    · rw [if_pos hlen]
      by_cases hdup :
          ((cands k).map ticketSignature).any (fun sig => seen.contains sig) =
            true
      · rw [if_pos hdup]
        exact ih (k + 1) seen strips h1 h2
      · rw [if_neg hdup]
        rcases h k with ⟨pools, hpools, hck⟩
        refine ih (k + 1) (seen ++ (cands k).map ticketSignature)
          (strips ++ [cands k]) ?_ ?_
        · rw [List.flatten_append, List.map_append]
          rw [List.nodup_append]
          refine ⟨h1, ?_, ?_⟩
          · simp only [List.flatten_cons, List.flatten_nil, List.append_nil]
            rw [hck]
            exact goodStrip_sorted_nodup pools hpools
          · intro x hxold hxnew
            simp only [List.flatten_cons, List.flatten_nil,
              List.append_nil] at hxnew
            rcases List.mem_map.mp hxold with ⟨a, ha, hax⟩
            rcases List.mem_map.mp hxnew with ⟨b, hb, hbx⟩
            have hsig : ticketSignature b ∈ (cands k).map ticketSignature :=
              List.mem_map_of_mem ticketSignature hb
            have hsigeq : ticketSignature a = ticketSignature b :=
              ticketSignature_eq_of_sortAsc_eq (by rw [hax, hbx])
            have hseen : ticketSignature a ∈ seen := h2 a ha
            have : seen.contains (ticketSignature b) = true := by
              rw [← hsigeq]
              exact List.elem_iff.mpr hseen
            have := List.any_eq_true.mpr ⟨ticketSignature b, hsig, this⟩
            exact hdup this
        · intro tk htk
          rw [List.flatten_append] at htk
          rcases List.mem_append.mp htk with hold | hnew
          · exact List.mem_append_left _ (h2 tk hold)
          · refine List.mem_append_right _ ?_
            simp only [List.flatten_cons, List.flatten_nil,
              List.append_nil] at hnew
            exact List.mem_map_of_mem ticketSignature hnew
    · rw [if_neg hlen]
      exact h1

/-- C3: for every candidate stream coming from the balanced generator and
every count, no two cards anywhere in the returned batch — in the same strip
or in different strips — have equal sorted-number lists (hence equal
canonical signatures). -/
theorem c3_batch_unique (cands : Nat → List (List Nat))
    (h : BalancedCandidates cands) (count : Nat) :
    (((generateStripsUnique cands count).flatten.map sortAsc)).Nodup :=
  generateStripsUniqueAux_nodup cands h count (max 2000 (count * 200)) 0 [] []
    (by simp) (by simp)

/-- Witness for C3: a constant candidate stream of identity-shuffle strips. -/
theorem c3_batch_unique_witness :
    (((generateStripsUnique (fun _ => generateBalancedStrip colRange)
        1).flatten.map sortAsc)).Nodup :=
  c3_batch_unique (fun _ => generateBalancedStrip colRange)
    (fun _ => ⟨colRange, fun c _ => List.Perm.refl _, rfl⟩) 1

/-- Helper for C7: the batch never exceeds the requested count. -/
theorem generateStripsUniqueAux_length (cands : Nat → List (List Nat))
    (count : Nat) :
    ∀ fuel k seen strips, strips.length ≤ count →
      (generateStripsUniqueAux cands count fuel k seen strips).length ≤
        count := by
  intro fuel
  induction fuel with
  | zero => intro k seen strips h1; exact h1
  | succ fuel ih =>
    intro k seen strips h1
    rw [generateStripsUniqueAux]
    by_cases hlen : strips.length < count
    · rw [if_pos hlen]
      by_cases hdup :
          ((cands k).map ticketSignature).any (fun sig => seen.contains sig) =
            true
      · rw [if_pos hdup]
        exact ih (k + 1) seen strips h1
      · rw [if_neg hdup]
        refine ih (k + 1) _ _ ?_
        rw [List.length_append]
        simpa using hlen
    · rw [if_neg hlen]
      exact h1

/-- Helper for C7: the loop inspects at most `fuel` candidates, starting at
index `k`. -/
theorem generateStripsUniqueAux_congr (cands cands' : Nat → List (List Nat))
    (count : Nat) :
    ∀ fuel k seen strips, (∀ i, k ≤ i → i < k + fuel → cands i = cands' i) →
      generateStripsUniqueAux cands count fuel k seen strips =
        generateStripsUniqueAux cands' count fuel k seen strips := by
  intro fuel
  induction fuel with
  | zero => intro k seen strips _; rfl
  | succ fuel ih =>
    intro k seen strips hag
    rw [generateStripsUniqueAux, generateStripsUniqueAux]
    have hk : cands k = cands' k := hag k (Nat.le_refl k) (by omega)
    rw [hk]
    by_cases hlen : strips.length < count
    · rw [if_pos hlen, if_pos hlen]
      have hag' : ∀ i, k + 1 ≤ i → i < (k + 1) + fuel → cands i = cands' i :=
        fun i hi1 hi2 => hag i (by omega) (by omega)
      by_cases hdup :
          ((cands' k).map ticketSignature).any (fun sig => seen.contains sig) =
            true
      · rw [if_pos hdup, if_pos hdup]
        exact ih (k + 1) seen strips hag'
      · rw [if_neg hdup, if_neg hdup]
        exact ih (k + 1) _ _ hag'
    · rw [if_neg hlen, if_neg hlen]

/-- C7: the batch generator returns at most `count` strips; its result only
depends on the first `max 2000 (count * 200)` candidates (it generates at
most that many strips before stopping); and an exhausted budget returns the
partial list accumulated so far. -/
theorem c7_budget (cands : Nat → List (List Nat)) (count : Nat) :
    (generateStripsUnique cands count).length ≤ count ∧
      (∀ cands' : Nat → List (List Nat),
        (∀ i, i < max 2000 (count * 200) → cands i = cands' i) →
        generateStripsUnique cands count = generateStripsUnique cands' count) ∧
      (∀ k seen strips,
        generateStripsUniqueAux cands count 0 k seen strips = strips) := by
  refine ⟨?_, ?_, fun k seen strips => rfl⟩
  · exact generateStripsUniqueAux_length cands count _ 0 [] []
      (Nat.zero_le count)
  · intro cands' hag
    exact generateStripsUniqueAux_congr cands cands' count _ 0 [] []
      (fun i _ hi => hag i (by simpa using hi))

/-- Witness for C7: a concrete stream, compared against itself. -/
theorem c7_budget_witness :
    (generateStripsUnique (fun _ => generateBalancedStrip colRange) 3).length ≤
        3 ∧
      generateStripsUnique (fun _ => generateBalancedStrip colRange) 3 =
        generateStripsUnique (fun _ => generateBalancedStrip colRange) 3 :=
  ⟨(c7_budget (fun _ => generateBalancedStrip colRange) 3).1,
    (c7_budget (fun _ => generateBalancedStrip colRange) 3).2.1
      (fun _ => generateBalancedStrip colRange) (fun i _ => rfl)⟩

/- ### Unique hash codes -/

/-- Little-endian decimal digits, structurally recursive on a fuel bound. -/
def decDigitsAux : Nat → Nat → List Nat
  | 0, _ => []
  | fuel + 1, n => if n = 0 then [] else n % 10 :: decDigitsAux fuel (n / 10)

/-- Little-endian decimal digits of `n`. -/
def decDigits (n : Nat) : List Nat := decDigitsAux n n

/-- Character of a decimal digit. -/
def decChar (d : Nat) : Char := Char.ofNat (48 + d)

/-- Decimal string of a natural number, modelling the JS `n.toString()`. -/
def decString (n : Nat) : String :=
  if n = 0 then ("0") else String.mk (((decDigits n).reverse).map decChar)

/-- Left zero-padding to width `w`, modelling `.padStart(digits, "0")`. -/
def padStart (s : String) (w : Nat) : String :=
  String.mk (List.replicate (w - s.length) (Char.ofNat 48) ++ s.data)

/-- The hash string of a sampled value (source: body of the sampling loop of
`generateUniqueHashes`). -/
def hashOf (n digits : Nat) : String := padStart (decString n) digits

/-- Sampling loop (source: `while (set.size < count)` of
`generateUniqueHashes`): `rands k` is the k-th sampled value, already reduced
into `[0, 10 ^ digits)`; the explicit `fuel` stands in for the unbounded
loop, `none` modelling failure to fill the set within `fuel` samples. -/
def hashLoop (rands : Nat → Nat) (count digits : Nat) :
    Nat → Nat → List String → Option (List String)
  | 0, _, set => if set.length < count then none else some set
  | fuel + 1, k, set =>
    if set.length < count then
      hashLoop rands count digits fuel (k + 1)
        (if set.contains (hashOf (rands k) digits) then set
         else set ++ [hashOf (rands k) digits])
    else some set

/-- Code generator (source `generateUniqueHashes`): infeasible requests throw
immediately, otherwise the sampling loop runs. -/
def generateUniqueHashes (rands : Nat → Nat) (fuel count digits : Nat) :
    Except String (Option (List String)) :=
  if count > 10 ^ digits then
    Except.error ("infeasible request: more codes than the digit space")
  else
    Except.ok (hashLoop rands count digits fuel 0 [])

/-- Well-formedness of one code: width exactly `digits`, characters 0-9. -/
def goodHash (digits : Nat) (s : String) : Bool :=
  s.length == digits &&
    s.data.all (fun ch => 48 ≤ ch.toNat && ch.toNat ≤ 57)

theorem decDigitsAux_eq_digits :
    ∀ fuel n, n ≤ fuel → decDigitsAux fuel n = Nat.digits 10 n := by
  intro fuel
  induction fuel with
  | zero =>
    intro n hn
    have : n = 0 := by omega
    subst this
    simp [decDigitsAux]
  | succ fuel ih =>
    intro n hn
    by_cases h0 : n = 0
    · subst h0
      simp [decDigitsAux]
    · rw [decDigitsAux, if_neg h0]
      rw [Nat.digits_def' (by omega) (by omega)]
      congr 1
      refine ih (n / 10) ?_
      have : n / 10 < n := Nat.div_lt_self (by omega) (by omega)
      omega

theorem decDigits_eq_digits (n : Nat) : decDigits n = Nat.digits 10 n :=
  decDigitsAux_eq_digits n n (Nat.le_refl n)

theorem decChar_toNat : ∀ d, d < 10 → (decChar d).toNat = 48 + d := by decide

/-- Every hash built from a value below `10 ^ digits` is well formed, as long
as `digits` is at least 1. -/
theorem goodHash_hashOf (n digits : Nat) (hd : 1 ≤ digits)
    (hn : n < 10 ^ digits) : goodHash digits (hashOf n digits) = true := by
  have hlen1 : 1 ≤ (decString n).length := by
    unfold decString
    by_cases h0 : n = 0
    · rw [if_pos h0]; decide
    · rw [if_neg h0]
      show 1 ≤ (((decDigits n).reverse).map decChar).length
      rw [List.length_map, List.length_reverse, decDigits_eq_digits]
      have hdig : (Nat.digits 10 n) ≠ [] :=
        Nat.digits_ne_nil_iff_ne_zero.mpr h0
      rcases hl : Nat.digits 10 n with _ | ⟨d, l⟩
      · exact absurd hl hdig
      · simp
  have hlen2 : (decString n).length ≤ digits := by
    unfold decString
    by_cases h0 : n = 0
    · rw [if_pos h0]; exact hd
    · rw [if_neg h0]
      show (((decDigits n).reverse).map decChar).length ≤ digits
      rw [List.length_map, List.length_reverse, decDigits_eq_digits]
      rw [Nat.digits_len 10 n (by omega) h0]
      have hlog : Nat.log 10 n < digits :=
        (Nat.lt_pow_iff_log_lt (by omega) h0).mp hn
      omega
  have hchars : ∀ ch ∈ (decString n).data,
      48 ≤ ch.toNat ∧ ch.toNat ≤ 57 := by
    unfold decString
    by_cases h0 : n = 0
    · rw [if_pos h0]
      decide
    · rw [if_neg h0]
      intro ch hch
      rcases List.mem_map.mp hch with ⟨d, hd2, hdc⟩
      have hd10 : d < 10 := by
        have hmem : d ∈ Nat.digits 10 n := by
          rw [← decDigits_eq_digits]
          exact List.mem_reverse.mp hd2
        exact Nat.digits_lt_base (by omega) hmem
      rw [← hdc, decChar_toNat d hd10]
      omega
  unfold goodHash hashOf padStart
  rw [Bool.and_eq_true]
  constructor
  · rw [Nat.beq_eq_true_eq]
    show (List.replicate (digits - (decString n).length) (Char.ofNat 48) ++
      (decString n).data).length = digits
    rw [List.length_append, List.length_replicate]
    have : (decString n).data.length = (decString n).length := rfl
    omega
  · rw [List.all_eq_true]
    intro ch hch
    show (48 ≤ ch.toNat && ch.toNat ≤ 57) = true
    rw [Bool.and_eq_true, decide_eq_true_eq, decide_eq_true_eq]
    rcases List.mem_append.mp hch with hrep | hdat
    · have := List.eq_of_mem_replicate hrep
      subst this
      decide
    · exact hchars ch hdat

/-- Invariant of the sampling loop: a nodup set of well-formed codes of size
at most `count` is completed, on success, to exactly `count` distinct
well-formed codes. -/
theorem hashLoop_spec (rands : Nat → Nat) (count digits : Nat)
    (hgood : ∀ k, goodHash digits (hashOf (rands k) digits) = true) :
    ∀ fuel k set l, set.Nodup → set.length ≤ count →
      (∀ s ∈ set, goodHash digits s = true) →
      hashLoop rands count digits fuel k set = some l →
      l.length = count ∧ l.Nodup ∧ ∀ s ∈ l, goodHash digits s = true := by
  intro fuel
  induction fuel with
  | zero =>
    intro k set l h1 h2 h3 hres
    rw [hashLoop] at hres
    by_cases hlt : set.length < count
    · rw [if_pos hlt] at hres; cases hres
    · rw [if_neg hlt] at hres
      cases hres
      exact ⟨by omega, h1, h3⟩
  | succ fuel ih =>
    intro k set l h1 h2 h3 hres
    rw [hashLoop] at hres
    by_cases hlt : set.length < count
    · rw [if_pos hlt] at hres
      by_cases hmem : set.contains (hashOf (rands k) digits) = true
      · rw [if_pos hmem] at hres
        exact ih (k + 1) set l h1 h2 h3 hres
      · rw [if_neg hmem] at hres
        refine ih (k + 1) (set ++ [hashOf (rands k) digits]) l ?_ ?_ ?_ hres
        · rw [List.nodup_append]
          refine ⟨h1, List.nodup_singleton _, ?_⟩
          intro x hx hx2
          rcases List.mem_singleton.mp hx2 with rfl
          exact hmem (List.elem_iff.mpr hx)
        · rw [List.length_append]
          simpa using hlt
        · intro s hs
          rcases List.mem_append.mp hs with hold | hnew
          · exact h3 s hold
          · rcases List.mem_singleton.mp hnew with rfl
            exact hgood k
    · rw [if_neg hlt] at hres
      cases hres
      exact ⟨by omega, h1, h3⟩

/-- C6 amended: for `digits ≥ 1` and in-range samples, the generator throws
exactly when `count > 10 ^ digits` (and then returns no list at all), and a
normal, completed return carries exactly `count` pairwise-distinct strings,
each of width `digits` and made of the characters 0-9. -/
theorem c6_hashes (rands : Nat → Nat) (fuel count digits : Nat)
    (hd : 1 ≤ digits) (hr : ∀ k, rands k < 10 ^ digits) :
    ((∃ e, generateUniqueHashes rands fuel count digits = Except.error e) ↔
        10 ^ digits < count) ∧
      ∀ l, generateUniqueHashes rands fuel count digits =
          Except.ok (some l) →
        l.length = count ∧ l.Nodup ∧ l.all (goodHash digits) = true := by
  constructor
  · constructor
    · rintro ⟨e, he⟩
      by_contra hc
      rw [generateUniqueHashes, if_neg hc] at he
      cases he
    · intro hc
      rw [generateUniqueHashes, if_pos hc]
      exact ⟨_, rfl⟩
  · intro l hl
    by_cases hc : 10 ^ digits < count
    · rw [generateUniqueHashes, if_pos hc] at hl
      cases hl
    · rw [generateUniqueHashes, if_neg hc] at hl
      have hloop := Except.ok.inj hl
      have := hashLoop_spec rands count digits
        (fun k => goodHash_hashOf (rands k) digits hd (hr k))
        fuel 0 [] l List.nodup_nil (Nat.zero_le count) (by simp) hloop
      refine ⟨this.1, this.2.1, ?_⟩
      rw [List.all_eq_true]
      exact fun s hs => this.2.2 s hs

/-- Witness for C6 amended at the stream `k % 10`, two codes of width 1. -/
theorem c6_hashes_witness :
    ([("0"), ("1")] : List String).length = 2 ∧
      ([("0"), ("1")] : List String).Nodup ∧
      ([("0"), ("1")] : List String).all (goodHash 1) = true :=
  (c6_hashes (fun k => k % 10) 5 2 1 (by omega)
      (fun k => Nat.mod_lt k (by omega))).2 [("0"), ("1")] rfl

/-- C6 counterexample: at `digits = 0`, `count = 1` the generator does not
throw (1 is not greater than `10 ^ 0 = 1`) and returns the single code `"0"`,
whose length is 1, not `digits = 0`: the claimed width property fails. -/
theorem c6_counterexample :
    generateUniqueHashes (fun _ => 0) 2 1 0 = Except.ok (some [("0")]) ∧
      ¬ (("0") : String).length = 0 := by
  exact ⟨rfl, by decide⟩

/- ### Grid placement -/

/-- Lowest-index row with the smallest current count (source: the `targetRow`
scan in `ticketToGrid`). -/
def pickRow (counts : List Nat) : Nat :=
  let t1 := if counts.getD 1 0 < counts.getD 0 0 then 1 else 0
  if counts.getD 2 0 < counts.getD t1 0 then 2 else t1

/-- One placement of value `v` into column `c` (source: the body of
`for (const v of colVals)` in `ticketToGrid`). -/
def placeNum (st : List (List (Option Nat)) × List Nat) (c v : Nat) :
    List (List (Option Nat)) × List Nat :=
  let t := pickRow st.2
  let t2 := if 5 ≤ st.2.getD t 0 then
      [0, 1, 2].find? (fun r => st.2.getD r 0 < 5)
    else some t
  match t2 with
  | none => st
  | some r =>
    (st.1.set r ((st.1.getD r []).set c (some v)),
      st.2.set r (st.2.getD r 0 + 1))

/-- Column bucket of a ticket: its numbers of column `c`, sorted ascending
(source: `columns` in `ticketToGrid`). -/
def bucketsOf (ticket : List Nat) (c : Nat) : List Nat :=
  sortAsc (ticket.filter (fun n => decide (colIndex n = c)))

/-- Grid construction (source `ticketToGrid`): bucket the ticket by column,
then place each value, column by column, into the least-filled row. -/
def ticketToGrid (ticket : List Nat) : List (List (Option Nat)) :=
  let columns := (List.range 9).map (bucketsOf ticket)
  ((List.range 9).foldl
    (fun st c => (columns.getD c []).foldl (fun st2 v => placeNum st2 c v) st)
    (List.replicate 3 (List.replicate 9 none), [0, 0, 0])).1

/-- Column-correctness check of a grid: every filled cell sits in the column
of its value. -/
def gridColsOK (g : List (List (Option Nat))) : Bool :=
  (List.range 3).all (fun r => (List.range 9).all (fun c =>
    match (g.getD r []).getD c none with
    | none => true
    | some v => colIndex v == c))

/-- Row counts after `n` placements: the loop fills the rows cyclically. -/
def countsOf (n : Nat) : List Nat :=
  [n / 3 + (if 0 < n % 3 then 1 else 0), n / 3 + (if 1 < n % 3 then 1 else 0),
    n / 3]

/- getD/set helpers -/

theorem getD_set_self {α : Type} (l : List α) (i : Nat) (x d : α)
    (h : i < l.length) : (l.set i x).getD i d = x := by
  rw [List.getD_eq_getElem?_getD, List.getElem?_set, if_pos rfl, if_pos h]
  rfl

theorem getD_set_ne {α : Type} (l : List α) {i j : Nat} (x : α) (d : α)
    (h : i ≠ j) : (l.set i x).getD j d = l.getD j d := by
  rw [List.getD_eq_getElem?_getD, List.getElem?_set, if_neg h,
    ← List.getD_eq_getElem?_getD]

/-- Setting a `none` cell to `some a` adds `a` to the row content. -/
theorem filterMap_id_set_some {α : Type} :
    ∀ (l : List (Option α)) (i : Nat) (a : α), i < l.length →
      l.getD i none = none →
      ((l.set i (some a)).filterMap id).Perm (a :: l.filterMap id) := by
  intro l
  induction l with
  | nil => intro i a hi _; cases hi
  | cons x l ih =>
    intro i a hi hnone
    match i with
    | 0 =>
      have hx : x = none := hnone
      subst hx
      simp [List.filterMap_cons]
    | i + 1 =>
      have hi' : i < l.length := by simpa using hi
      have hnone' : l.getD i none = none := hnone
      have hperm := ih i a hi' hnone'
      cases x with
      | none =>
        simpa [List.filterMap_cons] using hperm
      | some b =>
        simp only [List.set_cons_succ, List.filterMap_cons]
        refine ((hperm.cons b).trans ?_)
        exact List.Perm.swap a b _

/-- Updating one row inside the row list adds the new value to the flattened
grid content. -/
theorem flatten_map_set_perm {α β : Type} (f : α → List β) (v : β) :
    ∀ (rows : List α) (r : Nat) (x : α), r < rows.length →
      (f x).Perm (v :: f (rows.getD r x)) →
      (((rows.set r x).map f).flatten).Perm
        (v :: (rows.map f).flatten) := by
  intro rows
  induction rows with
  | nil => intro r x hr _; cases hr
  | cons y rows ih =>
    intro r x hr hperm
    match r with
    | 0 =>
      simp only [List.set_cons_zero, List.map_cons, List.flatten_cons]
      have : (y :: rows).getD 0 x = y := rfl
      rw [this] at hperm
      exact (hperm.append_right _).trans (List.Perm.refl _)
    | r + 1 =>
      have hr' : r < rows.length := by simpa using hr
      have : (y :: rows).getD (r + 1) x = rows.getD r x := rfl
      rw [this] at hperm
      simp only [List.set_cons_succ, List.map_cons, List.flatten_cons]
      refine ((ih r x hr' hperm).append_left (f y)).trans ?_
      exact List.perm_middle

/-- Invariant of the grid loop after the columns before `c` have been placed,
`n` placements in total: counts follow the cyclic pattern, columns from `c`
on are still empty, and filled cells carry exactly the values of the
processed buckets, each in its own column. -/
structure GridInv (buckets : Nat → List Nat) (c n : Nat)
    (rows : List (List (Option Nat))) : Prop where
  hlen : rows.length = 3
  hrow : ∀ row ∈ rows, row.length = 9
  hcnt : ∀ r, r < 3 →
    ((rows.getD r []).filterMap id).length = (countsOf n).getD r 0
  hempty : ∀ r, r < 3 → ∀ j, c ≤ j → (rows.getD r []).getD j none = none
  hcol : ∀ r, r < 3 → ∀ j v, (rows.getD r []).getD j none = some v →
    v ∈ buckets j
  hvals : ((rows.map (List.filterMap id)).flatten).Perm
    (((List.range c).map buckets).flatten)

/-- The cyclic pattern drives each placement: while fewer than 15 values are
placed, the least-filled lowest-index row is `n % 3`, it is not yet full, and
incrementing it advances the pattern. -/
theorem placeStep : ∀ n, n < 15 → pickRow (countsOf n) = n % 3 ∧
    ¬ 5 ≤ (countsOf n).getD (n % 3) 0 ∧
    (countsOf n).set (n % 3) ((countsOf n).getD (n % 3) 0 + 1) =
      countsOf (n + 1) := by decide

/-- While fewer than 15 values are placed, `placeNum` writes into row `n % 3`
of the given column and advances the count pattern. -/
theorem placeNum_eq (rows : List (List (Option Nat))) (n c v : Nat)
    (hn : n < 15) :
    placeNum (rows, countsOf n) c v =
      (rows.set (n % 3) ((rows.getD (n % 3) []).set c (some v)),
        countsOf (n + 1)) := by
  obtain ⟨h1, h2, h3⟩ := placeStep n hn
  unfold placeNum
  simp only [h1, if_neg h2]
  rw [h3]

theorem mem_getD {α : Type} (l : List α) (r : Nat) (d : α)
    (h : r < l.length) : l.getD r d ∈ l := by
  rw [List.getD_eq_getElem?_getD, List.getElem?_eq_getElem h]
  exact List.getElem_mem h

theorem getD_default_irrel {α : Type} (l : List α) (r : Nat) (d1 d2 : α)
    (h : r < l.length) : l.getD r d1 = l.getD r d2 := by
  rw [List.getD_eq_getElem?_getD, List.getD_eq_getElem?_getD,
    List.getElem?_eq_getElem h]
  rfl

/-- Effect of one placement on all invariant components. -/
theorem place_facts (rows : List (List (Option Nat))) (n c v : Nat)
    (hlen : rows.length = 3) (hrow : ∀ row ∈ rows, row.length = 9)
    (hcnt : ∀ r, r < 3 →
      ((rows.getD r []).filterMap id).length = (countsOf n).getD r 0)
    (hcell : (rows.getD (n % 3) []).getD c none = none)
    (hn : n < 15) (hc : c < 9) :
    (rows.set (n % 3) ((rows.getD (n % 3) []).set c (some v))).length = 3 ∧
    (∀ row ∈ rows.set (n % 3) ((rows.getD (n % 3) []).set c (some v)),
      row.length = 9) ∧
    (∀ r, r < 3 →
      (((rows.set (n % 3)
        ((rows.getD (n % 3) []).set c (some v))).getD r []).filterMap
          id).length = (countsOf (n + 1)).getD r 0) ∧
    (∀ r j, r < 3 →
      ((rows.set (n % 3)
        ((rows.getD (n % 3) []).set c (some v))).getD r []).getD j none =
        if r = n % 3 ∧ j = c then some v
        else (rows.getD r []).getD j none) ∧
    (((rows.set (n % 3)
        ((rows.getD (n % 3) []).set c (some v))).map
          (List.filterMap id)).flatten).Perm
      (v :: (rows.map (List.filterMap id)).flatten) := by
  have hm3 : n % 3 < 3 := Nat.mod_lt n (by omega)
  have hm3l : n % 3 < rows.length := by omega
  have hrow9 : ∀ r, r < 3 → (rows.getD r []).length = 9 := by
    intro r hr
    exact hrow (rows.getD r []) (mem_getD rows r [] (by omega))
  have hc9 : c < (rows.getD (n % 3) []).length := by
    rw [hrow9 (n % 3) hm3]; omega
  obtain ⟨_, _, h3⟩ := placeStep n hn
  have hgeq : (countsOf (n + 1)).getD (n % 3) 0 =
      (countsOf n).getD (n % 3) 0 + 1 := by
    rw [← h3, getD_set_self]
    simp [countsOf]
    omega
  have hgne : ∀ r, r ≠ n % 3 →
      (countsOf (n + 1)).getD r 0 = (countsOf n).getD r 0 := by
    intro r hr
    rw [← h3, getD_set_ne]
    omega
  have hfm := filterMap_id_set_some (rows.getD (n % 3) []) c v hc9 hcell
  refine ⟨by rw [List.length_set]; exact hlen, ?_, ?_, ?_, ?_⟩
  · intro row hmem
    rcases List.mem_or_eq_of_mem_set hmem with hold | hnew
    · exact hrow row hold
    · rw [hnew, List.length_set]
      exact hrow9 (n % 3) hm3
  · intro r hr
    by_cases hrm : r = n % 3
    · subst hrm
      rw [getD_set_self rows _ _ _ hm3l, hfm.length_eq, List.length_cons,
        hcnt _ hr, hgeq]
    · rw [getD_set_ne rows _ _ (fun h => hrm h.symm), hcnt r hr,
        hgne r hrm]
  · intro r j hr
    by_cases hrm : r = n % 3
    · subst hrm
      rw [getD_set_self rows _ _ _ hm3l]
      by_cases hjc : j = c
      · subst hjc
        rw [getD_set_self _ _ _ _ hc9]
        simp
      · rw [getD_set_ne _ _ _ (fun h => hjc h.symm)]
        simp [hjc]
    · rw [getD_set_ne rows _ _ (fun h => hrm h.symm)]
      simp [hrm]
  · refine flatten_map_set_perm (List.filterMap id) v rows (n % 3) _ hm3l ?_
    refine hfm.trans ?_
    rw [getD_default_irrel rows (n % 3) ((rows.getD (n % 3) []).set c (some v))
      [] hm3l]

/-- Processing one column preserves the invariant and advances the counts by
the bucket size. -/
theorem stepColumn (buckets : Nat → List Nat) (c n : Nat)
    (rows : List (List (Option Nat))) (inv : GridInv buckets c n rows)
    (hc : c < 9) (hn : n + (buckets c).length ≤ 15)
    (hb : (buckets c).length ≤ 2) :
    ∃ rows2,
      (buckets c).foldl (fun st2 v => placeNum st2 c v) (rows, countsOf n) =
        (rows2, countsOf (n + (buckets c).length)) ∧
      GridInv buckets (c + 1) (n + (buckets c).length) rows2 := by
  have hsucc : ((List.range (c + 1)).map buckets).flatten =
      ((List.range c).map buckets).flatten ++ buckets c := by
    rw [List.range_succ, List.map_append, List.flatten_append]
    simp
  rcases hbc : buckets c with _ | ⟨a, _ | ⟨b, _ | ⟨x, rest⟩⟩⟩
  · refine ⟨rows, by simp, ?_⟩
    simp only [List.length_nil, Nat.add_zero]
    refine ⟨inv.hlen, inv.hrow, inv.hcnt, ?_, inv.hcol, ?_⟩
    · intro r hr j hj
      exact inv.hempty r hr j (by omega)
    · refine inv.hvals.trans ?_
      rw [hsucc, hbc]
      simp
  · rw [hbc] at hn
    simp only [List.length_cons, List.length_nil] at hn
    obtain ⟨f1, f2, f3, f4, f5⟩ := place_facts rows n c a inv.hlen inv.hrow
      inv.hcnt
      (inv.hempty (n % 3) (Nat.mod_lt n (by omega)) c (Nat.le_refl c))
      (by omega) hc
    simp only [List.length_cons, List.length_nil]
    refine ⟨rows.set (n % 3) ((rows.getD (n % 3) []).set c (some a)), ?_, ?_⟩
    · simp only [List.foldl_cons, List.foldl_nil]
      rw [placeNum_eq rows n c a (by omega)]
    · refine ⟨f1, f2, f3, ?_, ?_, ?_⟩
      · intro r hr j hj
        rw [f4 r j hr]
        have hjc : ¬ (r = n % 3 ∧ j = c) := by
          rintro ⟨_, rfl⟩
          omega
        rw [if_neg hjc]
        exact inv.hempty r hr j (by omega)
      · intro r hr j v hv
        rw [f4 r j hr] at hv
        by_cases hcase : r = n % 3 ∧ j = c
        · rw [if_pos hcase] at hv
          cases hv
          rw [hcase.2, hbc]
          exact List.mem_cons_self a []
        · rw [if_neg hcase] at hv
          exact inv.hcol r hr j v hv
      · refine f5.trans ?_
        refine (inv.hvals.cons a).trans ?_
        rw [hsucc, hbc]
        exact (List.perm_append_singleton a _).symm
  · rw [hbc] at hn
    simp only [List.length_cons, List.length_nil] at hn
    obtain ⟨f1, f2, f3, f4, f5⟩ := place_facts rows n c a inv.hlen inv.hrow
      inv.hcnt
      (inv.hempty (n % 3) (Nat.mod_lt n (by omega)) c (Nat.le_refl c))
      (by omega) hc
    have hne : (n + 1) % 3 ≠ n % 3 := by omega
    have hm13 : (n + 1) % 3 < 3 := Nat.mod_lt (n + 1) (by omega)
    have hcell1 :
        (((rows.set (n % 3)
          ((rows.getD (n % 3) []).set c (some a))).getD ((n + 1) % 3)
            []).getD c none) = none := by
      rw [f4 ((n + 1) % 3) c hm13, if_neg (by rintro ⟨h1, _⟩; exact hne h1)]
      exact inv.hempty ((n + 1) % 3) hm13 c (Nat.le_refl c)
    obtain ⟨g1, g2, g3, g4, g5⟩ := place_facts
      (rows.set (n % 3) ((rows.getD (n % 3) []).set c (some a)))
      (n + 1) c b f1 f2 f3 hcell1 (by omega) hc
    simp only [List.length_cons, List.length_nil]
    refine ⟨(rows.set (n % 3) ((rows.getD (n % 3) []).set c
        (some a))).set ((n + 1) % 3)
        (((rows.set (n % 3) ((rows.getD (n % 3) []).set c
          (some a))).getD ((n + 1) % 3) []).set c (some b)), ?_, ?_⟩
    · simp only [List.foldl_cons, List.foldl_nil]
      rw [placeNum_eq rows n c a (by omega),
        placeNum_eq _ (n + 1) c b (by omega)]
    · refine ⟨g1, g2, ?_, ?_, ?_, ?_⟩
      · intro r hr
        have := g3 r hr
        simpa using this
      · intro r hr j hj
        rw [g4 r j hr, if_neg (by rintro ⟨_, rfl⟩; omega),
          f4 r j hr, if_neg (by rintro ⟨_, rfl⟩; omega)]
        exact inv.hempty r hr j (by omega)
      · intro r hr j v hv
        rw [g4 r j hr] at hv
        by_cases hcase2 : r = (n + 1) % 3 ∧ j = c
        · rw [if_pos hcase2] at hv
          cases hv
          rw [hcase2.2, hbc]
          exact List.mem_cons_of_mem a (List.mem_cons_self b [])
        · rw [if_neg hcase2] at hv
          rw [f4 r j hr] at hv
          by_cases hcase1 : r = n % 3 ∧ j = c
          · rw [if_pos hcase1] at hv
            cases hv
            rw [hcase1.2, hbc]
            exact List.mem_cons_self a [b]
          · rw [if_neg hcase1] at hv
            exact inv.hcol r hr j v hv
      · have hcomb := g5.trans (f5.cons b)
        have htarget :
            ((((List.range c).map buckets).flatten ++ [a, b])).Perm
              (b :: a :: ((List.range c).map buckets).flatten) := by
          have s1 : (((List.range c).map buckets).flatten ++ [a, b]).Perm
              (a :: (((List.range c).map buckets).flatten ++ [b])) :=
            List.perm_middle
          refine s1.trans ?_
          refine (List.Perm.cons a (List.perm_append_singleton b _)).trans ?_
          exact List.Perm.swap b a _
        refine hcomb.trans ?_
        refine ((inv.hvals.cons a).cons b).trans ?_
        rw [hsucc, hbc]
        exact htarget.symm
  · exfalso
    rw [hbc] at hb
    simp at hb

/-- Member-restricted variant of the column partition permutation. -/
theorem flatten_filter_key_perm_of_mem {α : Type} [DecidableEq α]
    (key : α → Nat) (l : List α) (n : Nat) (h : ∀ a ∈ l, key a < n) :
    (((List.range n).map
      (fun t => l.filter (fun a => decide (key a = t)))).flatten).Perm l := by
  rw [List.perm_iff_count]
  intro x
  rw [List.count_flatten, List.map_map]
  have hc : ∀ t : Nat,
      (List.count x ∘ fun t => l.filter (fun a => decide (key a = t))) t =
        (fun t => if key x = t then List.count x l else 0) t := by
    intro t
    simp only [Function.comp]
    rw [count_filter_eq]
    by_cases hx : key x = t <;> simp [hx]
  rw [List.map_congr_left (fun t _ => hc t), sum_range_map_ite]
  by_cases hx : key x < n
  · rw [if_pos hx]
  · rw [if_neg hx]
    rw [Eq.comm, List.count_eq_zero]
    intro hmem
    exact hx (h x hmem)

/-- Unrolling the outer fold of the grid construction from column `c0` with
`m` columns left. -/
theorem gridLoop (buckets : Nat → List Nat) (cols : List (List Nat))
    (hcols : ∀ c, c < 9 → cols.getD c [] = buckets c)
    (hb : ∀ c, c < 9 → (buckets c).length ≤ 2) :
    ∀ m c0 n rows, c0 + m = 9 →
      n + (((List.range' c0 m).map buckets).flatten).length = 15 →
      GridInv buckets c0 n rows →
      ∃ rows2,
        (List.range' c0 m).foldl
          (fun st c =>
            (cols.getD c []).foldl (fun st2 v => placeNum st2 c v) st)
          (rows, countsOf n) = (rows2, countsOf 15) ∧
        GridInv buckets 9 15 rows2 := by
  intro m
  induction m with
  | zero =>
    intro c0 n rows h9 htot inv
    have hn15 : n = 15 := by simpa using htot
    have hc09 : c0 = 9 := by omega
    subst hn15
    subst hc09
    exact ⟨rows, rfl, inv⟩
  | succ m ih =>
    intro c0 n rows h9 htot inv
    have hc0 : c0 < 9 := by omega
    rw [List.range'_succ, List.map_cons, List.flatten_cons,
      List.length_append] at htot
    rw [List.range'_succ]
    simp only [List.foldl_cons]
    rw [hcols c0 hc0]
    obtain ⟨rows1, heq1, inv1⟩ := stepColumn buckets c0 n rows inv hc0
      (by omega) (hb c0 hc0)
    rw [heq1]
    exact ih (c0 + 1) (n + (buckets c0).length) rows1 (by omega) (by omega)
      inv1

/-- The initial empty grid satisfies the invariant. -/
theorem gridInv_init (buckets : Nat → List Nat) :
    GridInv buckets 0 0
      (List.replicate 3 (List.replicate 9 (none : Option Nat))) := by
  have hget : ∀ r, r < 3 →
      (List.replicate 3 (List.replicate 9 (none : Option Nat))).getD r [] =
        List.replicate 9 none := by
    intro r hr
    rw [List.getD_eq_getElem?_getD, List.getElem?_replicate, if_pos hr]
    rfl
  have hcell : ∀ j, (List.replicate 9 (none : Option Nat)).getD j none =
      none := by
    intro j
    rw [List.getD_eq_getElem?_getD, List.getElem?_replicate]
    by_cases hj : j < 9 <;> simp [hj]
  refine ⟨rfl, ?_, ?_, ?_, ?_, ?_⟩
  · intro row hrow
    rw [List.eq_of_mem_replicate hrow]
    rfl
  · intro r hr
    rw [hget r hr]
    interval_cases r <;> rfl
  · intro r hr j _
    rw [hget r hr]
    exact hcell j
  · intro r hr j v hv
    rw [hget r hr, hcell j] at hv
    cases hv
  · rfl

/-- For an in-range 15-number card with at most 2 numbers per column, the
final grid satisfies the full invariant. -/
theorem ticketToGrid_inv (ticket : List Nat) (h15 : ticket.length = 15)
    (hrange : ∀ x ∈ ticket, 1 ≤ x ∧ x ≤ 90)
    (hb : ∀ c, c < 9 →
      (ticket.filter (fun n => decide (colIndex n = c))).length ≤ 2) :
    GridInv (bucketsOf ticket) 9 15 (ticketToGrid ticket) ∧
      ((((List.range 9).map (bucketsOf ticket)).flatten)).Perm ticket := by
  have hkey : ∀ a ∈ ticket, colIndex a < 9 := by
    intro a ha
    have := hrange a ha
    unfold colIndex
    by_cases h90 : a = 90
    · rw [if_pos h90]; omega
    · rw [if_neg h90]; omega
  have hpart : ((((List.range 9).map (bucketsOf ticket)).flatten)).Perm
      ticket := by
    refine (flatten_map_perm_of_perm _ _
      (fun c => ticket.filter (fun n => decide (colIndex n = c))) ?_).trans
      (flatten_filter_key_perm_of_mem colIndex ticket 9 hkey)
    intro c _
    exact List.mergeSort_perm _ _
  have hblen : ∀ c, c < 9 → (bucketsOf ticket c).length ≤ 2 := by
    intro c hc
    unfold bucketsOf sortAsc
    rw [List.length_mergeSort]
    exact hb c hc
  have hcols : ∀ c, c < 9 →
      ((List.range 9).map (bucketsOf ticket)).getD c [] =
        bucketsOf ticket c := by
    intro c hc
    rw [List.getD_eq_getElem?_getD, List.getElem?_map,
      List.getElem?_range hc]
    rfl
  have htot : 0 + (((List.range' 0 9).map (bucketsOf ticket)).flatten).length
      = 15 := by
    rw [← List.range_eq_range', Nat.zero_add, hpart.length_eq, h15]
  obtain ⟨rows2, heq, inv⟩ := gridLoop (bucketsOf ticket)
    ((List.range 9).map (bucketsOf ticket)) hcols hblen 9 0 0
    (List.replicate 3 (List.replicate 9 none)) rfl htot
    (gridInv_init (bucketsOf ticket))
  have hgrid : ticketToGrid ticket = rows2 := by
    have h2 := congrArg Prod.fst heq
    exact h2
  rw [hgrid]
  exact ⟨inv, hpart⟩

/-- A 15-number card loading eleven numbers into column 8: the grid loop
overwrites cells of that column. -/
def exCardA : List Nat :=
  [1, 2, 3, 4, 80, 81, 82, 83, 84, 85, 86, 87, 88, 89, 90]

/-- A balanced 15-number card (1 or 2 numbers per column). -/
def exCardB : List Nat :=
  [1, 10, 11, 20, 21, 30, 31, 40, 41, 50, 51, 60, 61, 70, 80]

unseal List.merge List.mergeSort in
/-- C9 counterexample.  First failure: on the valid 15-number card `exCardA`
(distinct, in range) the grid retains only 6 of the 15 numbers — same-column
placements overwrite cells — so the claimed universal statement over all
15-number cards is false.  Second failure: even on the balanced card
`exCardB` (at most 2 numbers per column) the numbers of column 3 are placed
descending top-to-bottom (31 in row 0 above 30 in row 2), refuting the
claimed ascending order within a column. -/
theorem c9_counterexample :
    exCardA.length = 15 ∧ exCardA.Nodup ∧
      (∀ n ∈ exCardA, 1 ≤ n ∧ n ≤ 90) ∧
      ((ticketToGrid exCardA).map (List.filterMap id)).flatten.length = 6 ∧
      exCardB.length = 15 ∧ exCardB.Nodup ∧
      (∀ n ∈ exCardB, 1 ≤ n ∧ n ≤ 90) ∧
      (∀ c, c < 9 →
        (exCardB.filter (fun n => decide (colIndex n = c))).length ≤ 2) ∧
      ((ticketToGrid exCardB).getD 0 []).getD 3 none = some 31 ∧
      ((ticketToGrid exCardB).getD 2 []).getD 3 none = some 30 := by
  decide

/-- C9 amended: for every card of 15 numbers of `[1, 90]` with at most 2
numbers per column, the grid is 3 rows of 9 cells, every row holds exactly 5
numbers, the filled cells are exactly the card's numbers, and every number
sits in its own column.  (The within-column order is not always ascending:
see the counterexample.) -/
theorem c9_grid (ticket : List Nat) (h15 : ticket.length = 15)
    (hrange : ∀ x ∈ ticket, 1 ≤ x ∧ x ≤ 90)
    (hb : ∀ c, c < 9 →
      (ticket.filter (fun n => decide (colIndex n = c))).length ≤ 2) :
    (ticketToGrid ticket).map List.length = [9, 9, 9] ∧
      (ticketToGrid ticket).map (fun row => (row.filterMap id).length) =
        [5, 5, 5] ∧
      (((ticketToGrid ticket).map (List.filterMap id)).flatten).Perm ticket ∧
      gridColsOK (ticketToGrid ticket) = true := by
  obtain ⟨inv, hpart⟩ := ticketToGrid_inv ticket h15 hrange hb
  refine ⟨?_, ?_, inv.hvals.trans hpart, ?_⟩
  · obtain ⟨r0, r1, r2, hshape⟩ := List.length_eq_three.mp inv.hlen
    rw [hshape]
    have h0 := inv.hrow r0 (by rw [hshape]; exact List.mem_cons_self _ _)
    have h1 := inv.hrow r1 (by
      rw [hshape]
      exact List.mem_cons_of_mem _ (List.mem_cons_self _ _))
    have h2 := inv.hrow r2 (by
      rw [hshape]
      exact List.mem_cons_of_mem _ (List.mem_cons_of_mem _
        (List.mem_cons_self _ _)))
    simp [h0, h1, h2]
  · obtain ⟨r0, r1, r2, hshape⟩ := List.length_eq_three.mp inv.hlen
    have h0 := inv.hcnt 0 (by omega)
    have h1 := inv.hcnt 1 (by omega)
    have h2 := inv.hcnt 2 (by omega)
    rw [hshape] at h0 h1 h2 ⊢
    simp only [List.getD_cons_zero, List.getD_cons_succ] at h0 h1 h2
    simp [h0, h1, h2]
    refine ⟨?_, ?_, ?_⟩ <;> rfl
  · rw [gridColsOK, List.all_eq_true]
    intro r hr
    rw [List.all_eq_true]
    intro c hc
    have hr3 : r < 3 := List.mem_range.mp hr
    cases hcell : ((ticketToGrid ticket).getD r []).getD c none with
    | none => rfl
    | some v =>
      have hvmem : v ∈ bucketsOf ticket c := inv.hcol r hr3 c v hcell
      unfold bucketsOf sortAsc at hvmem
      rw [List.mem_mergeSort] at hvmem
      have hdec := (List.mem_filter.mp hvmem).2
      have heq : colIndex v = c := of_decide_eq_true hdec
      simp [heq]

/-- Witness for C9 amended at the balanced card `exCardB`. -/
theorem c9_grid_witness :
    (ticketToGrid exCardB).map List.length = [9, 9, 9] ∧
      (ticketToGrid exCardB).map (fun row => (row.filterMap id).length) =
        [5, 5, 5] ∧
      (((ticketToGrid exCardB).map (List.filterMap id)).flatten).Perm
        exCardB ∧
      gridColsOK (ticketToGrid exCardB) = true :=
  c9_grid exCardB (by decide) (by decide) (by decide)
